import Mathlib

/-!
# Verification of the CHM class-record extractor

Shallow embedding of the extraction pipeline implemented by the
`CHMJsonExtractor` class (`tests/chmextractor.module.js`): signature
validation (`validateCHM`), chunked text decoding (`extractText`), the
relevance filter (`containsRelevantText`), the line-oriented pattern
extractor (`toStructuredJSON`) and the two export entry points
(`downloadJSON`, `downloadCSV`).

Buffers are modelled as `List Nat` (byte values), strings as Lean
`String`/`List Char`.  The JavaScript regular expressions used by the
extractor are small enough that their leftmost-match semantics is
reproduced directly by hand-written scanners over `List Char`; each
scanner's doc comment names the regex it embeds.
-/

deriving instance DecidableEq for Except

namespace Chm

/-- Embeds the JavaScript `\w` character class (`[A-Za-z0-9_]`);
`[\w\d]` in the source denotes the same set. -/
def isWordChar (c : Char) : Bool :=
  c.isAlpha || c.isDigit || c == '_'

/-- Embeds the JavaScript `\s` character class: ASCII whitespace
(tab, LF, VT, FF, CR, space) plus NBSP, the Unicode space separators,
LINE/PARAGRAPH SEPARATOR, NARROW NBSP, MMSP, IDEOGRAPHIC SPACE and BOM. -/
def jsSpace (c : Char) : Bool :=
  let n := c.toNat
  (9 ≤ n && n ≤ 13) || n == 32 || n == 160 || n == 0x1680 ||
  (0x2000 ≤ n && n ≤ 0x200a) || n == 0x2028 || n == 0x2029 ||
  n == 0x202f || n == 0x205f || n == 0x3000 || n == 0xfeff

/-- Embeds the JavaScript `.` (dot) without the `s` flag: any character
except LF, CR, LINE SEPARATOR and PARAGRAPH SEPARATOR. -/
def isDotChar (c : Char) : Bool :=
  !(c == '\n' || c == '\r' || c.toNat == 0x2028 || c.toNat == 0x2029)

/-- Embeds `String.prototype.trim()`: strips `\s` characters from both
ends, on the character list. -/
def jsTrimList (cs : List Char) : List Char :=
  ((cs.dropWhile jsSpace).reverse.dropWhile jsSpace).reverse

/-- Embeds `String.prototype.trim()` on strings. -/
def jsTrim (s : String) : String :=
  String.mk (jsTrimList s.data)

/-- Embeds `rawText.split('\n')`: splits at every LF, keeping empty
pieces (so `splitLines "".data = [[]]`, like JavaScript). -/
def splitLines : List Char → List (List Char)
  | [] => [[]]
  | c :: rest =>
    if c == '\n' then [] :: splitLines rest
    else
      match splitLines rest with
      | l :: ls => (c :: l) :: ls
      | [] => [[c]]

/-- Embeds `Array.prototype.join(sep)`. -/
def joinSep (sep : String) : List String → String
  | [] => ""
  | a :: rest => rest.foldl (fun acc x => acc ++ sep ++ x) a

/-- One extracted entry, the object literal
`{ type: 'Class', name, description }` pushed by `toStructuredJSON`. -/
structure Record where
  type : String
  name : String
  description : String
deriving DecidableEq, Repr

/-- Case-insensitive test for the literal `Class` keyword of the
source regexes (all of them carry the `i` flag). -/
def isClassKw (c1 c2 c3 c4 c5 : Char) : Bool :=
  c1.toLower == 'c' && c2.toLower == 'l' && c3.toLower == 'a' &&
  c4.toLower == 's' && c5.toLower == 's'

/-- Attempts the body of `/\bClass\s+([A-Z][\w\d]*)\s+(.*)/i` at the
head of `cs` (the `\b` is handled by the caller).  Greedy `\s+` and
`[\w\d]*` need no backtracking here: shortening a greedy run would put
a word character where the following `\s` must match (or a space where
`[A-Z]` must match), which always fails.  Returns the two capture
groups: the class name and the (dot-limited) rest of the line. -/
def classMatchHere (cs : List Char) : Option (List Char × List Char) :=
  match cs with
  | c1 :: c2 :: c3 :: c4 :: c5 :: rest =>
    if isClassKw c1 c2 c3 c4 c5 then
      let sp1 := rest.takeWhile jsSpace
      let r1 := rest.dropWhile jsSpace
      if sp1.isEmpty then none
      else
        match r1 with
        | i :: r2 =>
          if i.isAlpha then
            let idTail := r2.takeWhile isWordChar
            let r3 := r2.dropWhile isWordChar
            let sp2 := r3.takeWhile jsSpace
            let r4 := r3.dropWhile jsSpace
            if sp2.isEmpty then none
            else some (i :: idTail, r4.takeWhile isDotChar)
          else none
        | [] => none
    else none
  | _ => none

/-- Scanner for `line.match(/\bClass\s+([A-Z][\w\d]*)\s+(.*)/i)`:
tries every start position left to right (JavaScript leftmost-match),
carrying the previous character so that the word boundary `\b` before
the keyword can be tested (`Class` starts with a word character, so the
boundary holds iff the previous character is absent or not `\w`). -/
def classMatchAux : Option Char → List Char → Option (List Char × List Char)
  | prev, cs =>
    let boundary := match prev with
      | none => true
      | some p => !isWordChar p
    match (if boundary then classMatchHere cs else none) with
    | some r => some r
    | none =>
      match cs with
      | [] => none
      | c :: rest => classMatchAux (some c) rest

/-- Embeds `lines[i].match(classPattern)` with
`classPattern = /\bClass\s+([A-Z][\w\d]*)\s+(.*)/i`, returning the two
capture groups on success. -/
def classMatch (line : List Char) : Option (List Char × List Char) :=
  classMatchAux none line

/-- Attempts `/\bClass\s+[A-Z]/i` at the head of `cs` (without `\b`). -/
def newHeaderHere (cs : List Char) : Bool :=
  match cs with
  | c1 :: c2 :: c3 :: c4 :: c5 :: rest =>
    isClassKw c1 c2 c3 c4 c5 &&
    (let r1 := rest.dropWhile jsSpace
     !(rest.takeWhile jsSpace).isEmpty &&
     match r1 with
     | i :: _ => i.isAlpha
     | [] => false)
  | _ => false

/-- Scanner for `lines[i+1].match(/\bClass\s+[A-Z]/i)`, the "new
header" test that stops description capture. -/
def newHeaderAux : Option Char → List Char → Bool
  | prev, cs =>
    let boundary := match prev with
      | none => true
      | some p => !isWordChar p
    (boundary && newHeaderHere cs) ||
    match cs with
    | [] => false
    | c :: rest => newHeaderAux (some c) rest

/-- Embeds the test `lines[i+1].match(/\bClass\s+[A-Z]/i)`. -/
def newHeaderTest (line : List Char) : Bool :=
  newHeaderAux none line

/-- Embeds the test `lines[i+1].match(/^\s*$/)`: the line is entirely
whitespace. -/
def isBlankLine (line : List Char) : Bool :=
  line.all jsSpace

/-- The record literal `{ type: 'Class', name, description }`. -/
def mkRec (name desc : List Char) : Record :=
  ⟨"Class", String.mk name, String.mk desc⟩

/-- Embeds the `for` loop of `toStructuredJSON` as a state machine over
the line list.  `none` is the scanning state; `some (name, desc)` means
a header matched and continuation lines are being consumed by the inner
`while`.  When a continuation stops at a blank line or a new header,
the record is pushed and the stopping line is re-examined with
`classPattern` exactly as the next `for` iteration does (inlined here
to keep the recursion structural). -/
def extractLines : List (List Char) → Option (List Char × List Char) → List Record
  | [], none => []
  | [], some (n, d) => [mkRec n d]
  | l :: rest, none =>
    (match classMatch l with
     | some (n, d) => extractLines rest (some (jsTrimList n, jsTrimList d))
     | none => extractLines rest none)
  | l :: rest, some (n, d) =>
    if isBlankLine l || newHeaderTest l then
      mkRec n d ::
        (match classMatch l with
         | some (n2, d2) => extractLines rest (some (jsTrimList n2, jsTrimList d2))
         | none => extractLines rest none)
    else
      extractLines rest (some (n, d ++ ' ' :: jsTrimList l))

/-- Embeds `toStructuredJSON(rawText)`: split on `'\n'`, scan each line
with `classPattern`, aggregate continuation lines (trimmed, joined by a
single space) until a blank line or a line passing the new-header test,
and emit `{type:'Class', name, description}` records in order. -/
def toStructuredJSON (rawText : String) : List Record :=
  extractLines (splitLines rawText.data) none

/-- Attempts `/Class\s+[A-Z][a-zA-Z0-9_]+\s{2,}/i` at the head of `cs`
(this regex has no `\b`).  As in `classMatchHere`, the greedy runs need
no backtracking. -/
def relHere (cs : List Char) : Bool :=
  match cs with
  | c1 :: c2 :: c3 :: c4 :: c5 :: rest =>
    isClassKw c1 c2 c3 c4 c5 &&
    (let r1 := rest.dropWhile jsSpace
     !(rest.takeWhile jsSpace).isEmpty &&
     match r1 with
     | i :: r2 =>
       i.isAlpha &&
       (let idTail := r2.takeWhile isWordChar
        let r3 := r2.dropWhile isWordChar
        !idTail.isEmpty &&
        match r3 with
        | a :: b :: _ => jsSpace a && jsSpace b
        | _ => false)
     | [] => false)
  | _ => false

/-- Scanner for `/Class\s+[A-Z][a-zA-Z0-9_]+\s{2,}/i.test(text)`. -/
def containsRel : List Char → Bool
  | [] => false
  | c :: rest => relHere (c :: rest) || containsRel rest

/-- Embeds `containsRelevantText(text)`. -/
def containsRelevantText (text : String) : Bool :=
  containsRel text.data

/-! ## UTF-8 decoding

`extractText` decodes each chunk with `new TextDecoder('utf-8')`, the
non-fatal WHATWG UTF-8 decoder: invalid input never throws, each
maximal invalid subsequence becomes one U+FFFD.  The decoder below is
the WHATWG `utf-8 decode` state machine: a pending state holds the
accumulated code-point bits, the number of continuation bytes still
needed and the admissible range for the next byte; when a continuation
byte is rejected the byte is reconsumed in the initial state (inlined
so the recursion stays structural). -/

/-- Pending state of the WHATWG UTF-8 decoder. -/
structure Utf8State where
  cp : Nat
  needed : Nat
  lo : Nat
  hi : Nat
deriving Repr

/-- WHATWG UTF-8 handling of a byte in the initial state:
an ASCII byte yields a character, a legal leading byte opens a pending
state (with the sequence-specific bounds for the first continuation
byte), anything else (`0x80–0xC1`, `0xF5–`) is an invalid lead. -/
def startByte (b : Nat) : Option (Char ⊕ Utf8State) :=
  if b ≤ 0x7f then some (Sum.inl (Char.ofNat b))
  else if 0xc2 ≤ b ∧ b ≤ 0xdf then some (Sum.inr ⟨b - 0xc0, 1, 0x80, 0xbf⟩)
  else if 0xe0 ≤ b ∧ b ≤ 0xef then
    some (Sum.inr ⟨b - 0xe0, 2, (if b = 0xe0 then 0xa0 else 0x80),
                   (if b = 0xed then 0x9f else 0xbf)⟩)
  else if 0xf0 ≤ b ∧ b ≤ 0xf4 then
    some (Sum.inr ⟨b - 0xf0, 3, (if b = 0xf0 then 0x90 else 0x80),
                   (if b = 0xf4 then 0x8f else 0xbf)⟩)
  else none

/-- The replacement character U+FFFD. -/
def repl : Char := Char.ofNat 0xfffd

/-- The non-fatal WHATWG UTF-8 decoder (`new TextDecoder('utf-8')`):
every decode error emits U+FFFD and, for a rejected continuation byte,
reconsumes that byte in the initial state. -/
def utf8Run : Option Utf8State → List Nat → List Char
  | none, [] => []
  | some _, [] => [repl]
  | none, b :: rest =>
    (match startByte b with
     | some (Sum.inl c) => c :: utf8Run none rest
     | some (Sum.inr st) => utf8Run (some st) rest
     | none => repl :: utf8Run none rest)
  | some st, b :: rest =>
    if st.lo ≤ b ∧ b ≤ st.hi then
      if st.needed = 1 then
        Char.ofNat (st.cp * 64 + (b - 0x80)) :: utf8Run none rest
      else
        utf8Run (some ⟨st.cp * 64 + (b - 0x80), st.needed - 1, 0x80, 0xbf⟩) rest
    else
      repl ::
        (match startByte b with
         | some (Sum.inl c) => c :: utf8Run none rest
         | some (Sum.inr st') => utf8Run (some st') rest
         | none => repl :: utf8Run none rest)

/-- Embeds `TextDecoder('utf-8').decode` on a byte list. -/
def utf8DecodeLossy (bytes : List Nat) : List Char :=
  utf8Run none bytes

/-- The same state machine in fatal mode (`{fatal: true}`): any decode
error fails instead of substituting U+FFFD. -/
def utf8RunStrict : Option Utf8State → List Nat → Option (List Char)
  | none, [] => some []
  | some _, [] => none
  | none, b :: rest =>
    (match startByte b with
     | some (Sum.inl c) => (utf8RunStrict none rest).map (c :: ·)
     | some (Sum.inr st) => utf8RunStrict (some st) rest
     | none => none)
  | some st, b :: rest =>
    if st.lo ≤ b ∧ b ≤ st.hi then
      if st.needed = 1 then
        (utf8RunStrict none rest).map (Char.ofNat (st.cp * 64 + (b - 0x80)) :: ·)
      else
        utf8RunStrict (some ⟨st.cp * 64 + (b - 0x80), st.needed - 1, 0x80, 0xbf⟩) rest
    else none

/-- Strict UTF-8 decoding of a byte list. -/
def utf8DecodeStrict (bytes : List Nat) : Option (List Char) :=
  utf8RunStrict none bytes

/-! ## The decoding ladder described by the specification

The spec's chunk decoder tries UTF-8 (strict), then UTF-16LE (strict),
then Windows-1252 (strict), then Latin-1 with control characters
replaced by spaces.  Only the first rung exists in the source
(`extractText` uses a single non-fatal UTF-8 decoder), so the ladder is
modelled here from the spec's words to compare against the source. -/

/-- Modelled from the spec: strict UTF-16 little-endian decoding.
Bytes are paired little-endian into code units; an odd trailing byte,
a lone surrogate or an unpaired high surrogate fails. -/
def utf16leDecodeStrict : List Nat → Option (List Char)
  | [] => some []
  | [_] => none
  | lo :: hi :: rest =>
    let u := hi * 256 + lo
    if u < 0xd800 ∨ 0xdfff < u then
      (utf16leDecodeStrict rest).map (Char.ofNat u :: ·)
    else if u ≤ 0xdbff then
      match rest with
      | lo2 :: hi2 :: rest2 =>
        let u2 := hi2 * 256 + lo2
        if 0xdc00 ≤ u2 ∧ u2 ≤ 0xdfff then
          (utf16leDecodeStrict rest2).map
            (Char.ofNat (0x10000 + (u - 0xd800) * 1024 + (u2 - 0xdc00)) :: ·)
        else none
      | _ => none
    else none

/-- Modelled from the spec: the Windows-1252 mapping of the bytes
`0x80–0x9F`; the five bytes left undefined by the code page yield
`none`, every other byte maps to a non-ASCII code point. -/
def win1252High (b : Nat) : Option Nat :=
  if b = 0x80 then some 0x20ac else if b = 0x82 then some 0x201a
  else if b = 0x83 then some 0x0192 else if b = 0x84 then some 0x201e
  else if b = 0x85 then some 0x2026 else if b = 0x86 then some 0x2020
  else if b = 0x87 then some 0x2021 else if b = 0x88 then some 0x02c6
  else if b = 0x89 then some 0x2030 else if b = 0x8a then some 0x0160
  else if b = 0x8b then some 0x2039 else if b = 0x8c then some 0x0152
  else if b = 0x8e then some 0x017d else if b = 0x91 then some 0x2018
  else if b = 0x92 then some 0x2019 else if b = 0x93 then some 0x201c
  else if b = 0x94 then some 0x201d else if b = 0x95 then some 0x2022
  else if b = 0x96 then some 0x2013 else if b = 0x97 then some 0x2014
  else if b = 0x98 then some 0x02dc else if b = 0x99 then some 0x2122
  else if b = 0x9a then some 0x0161 else if b = 0x9b then some 0x203a
  else if b = 0x9c then some 0x0153 else if b = 0x9e then some 0x017e
  else if b = 0x9f then some 0x0178 else none

/-- Modelled from the spec: strict Windows-1252 decoding (fails on the
code page's unassigned bytes and on values above 0xFF). -/
def windows1252DecodeStrict : List Nat → Option (List Char)
  | [] => some []
  | b :: rest =>
    if b ≤ 0x7f ∨ (0xa0 ≤ b ∧ b ≤ 0xff) then
      (windows1252DecodeStrict rest).map (Char.ofNat b :: ·)
    else
      match win1252High b with
      | some cp => (windows1252DecodeStrict rest).map (Char.ofNat cp :: ·)
      | none => none

/-- Modelled from the spec: Latin-1 with control-character-to-space
substitution — C0 controls, DEL and C1 controls become spaces; this
rung never fails. -/
def latin1ControlDecode (bytes : List Nat) : List Char :=
  bytes.map fun b =>
    if b < 0x20 ∨ (0x7f ≤ b ∧ b ≤ 0x9f) then ' ' else Char.ofNat (b % 256)

/-- Modelled from the spec: the per-chunk fallback ladder — UTF-8
strict, then UTF-16LE strict, then Windows-1252 strict, then the
guaranteed-success Latin-1 fallback; the first success wins. -/
def specLadderDecode (bytes : List Nat) : List Char :=
  match utf8DecodeStrict bytes with
  | some s => s
  | none =>
    match utf16leDecodeStrict bytes with
    | some s => s
    | none =>
      match windows1252DecodeStrict bytes with
      | some s => s
      | none => latin1ControlDecode bytes

/-! ## The pipeline -/

/-- Embeds `validateCHM(buffer)`: a buffer of fewer than 4 bytes is
invalid; otherwise the first 4 bytes are decoded with the (non-fatal)
UTF-8 `TextDecoder` and compared with `'ITSF'`. -/
def validateCHM (buffer : List Nat) : Bool :=
  if buffer.length < 4 then false
  else utf8DecodeLossy (buffer.take 4) == "ITSF".data

/-- The chunking loop of `extractText`: successive 16384-byte windows
`[i, min(i+16384, length))` of the buffer. -/
def chunkList (l : List Nat) : List (List Nat) :=
  if l.isEmpty then []
  else l.take 16384 :: chunkList (l.drop 16384)
termination_by l.length
decreasing_by
  simp only [List.length_drop]
  cases l with
  | nil => simp_all
  | cons a as => simp; omega

/-- Embeds `extractText(buffer)`: decode each 16KB chunk with the
non-fatal UTF-8 decoder, keep the chunks passing
`containsRelevantText`, and join them with `'\n'`. -/
def extractText (buffer : List Nat) : String :=
  joinSep "\n"
    (((chunkList buffer).map (fun c => String.mk (utf8DecodeLossy c))).filter
      containsRelevantText)

/-- The failure reported by `loadFile` when `validateCHM` rejects the
buffer (`'Invalid CHM format (missing ITSF signature).'`). -/
inductive ExtractError where
  | invalidFormat
deriving DecidableEq, Repr

/-- The extraction entry point: the body of `loadFile` after the file
is read — reject the buffer when `validateCHM` fails, otherwise return
`toStructuredJSON(extractText(buffer))`.  The error branch returns
before `extractText` is ever applied, mirroring the early `return` in
the source. -/
def extractClassRecords (buffer : List Nat) : Except ExtractError (List Record) :=
  if validateCHM buffer then
    Except.ok (toStructuredJSON (extractText buffer))
  else
    Except.error ExtractError.invalidFormat

/-! ## Export layer -/

/-- Embeds `JSON.stringify` escaping of one character inside a string literal
(ECMA-262 `QuoteJSONString`): quote, backslash and the named control
escapes, `\u00xx` for the remaining control characters. -/
def jsonEscapeChar (c : Char) : List Char :=
  if c = '"' then ['\\', '"']
  else if c = '\\' then ['\\', '\\']
  else if c.toNat = 8 then ['\\', 'b']
  else if c.toNat = 9 then ['\\', 't']
  else if c.toNat = 10 then ['\\', 'n']
  else if c.toNat = 12 then ['\\', 'f']
  else if c.toNat = 13 then ['\\', 'r']
  else if c.toNat < 32 then
    ['\\', 'u', '0', '0', (Nat.toDigits 16 (c.toNat / 16)).headD '0',
     (Nat.toDigits 16 (c.toNat % 16)).headD '0']
  else [c]

/-- Embeds `JSON.stringify` of one string value. -/
def jsonQuote (s : String) : String :=
  String.mk ('"' :: s.data.flatMap jsonEscapeChar ++ ['"'])

/-- Embeds `JSON.stringify(record, ...)` at nesting depth 1 with 2-space
indentation: the object layout produced for one entry of the record
array. -/
def jsonRecord (r : Record) : String :=
  "  \x7b\n    \"type\": " ++ jsonQuote r.type ++
  ",\n    \"name\": " ++ jsonQuote r.name ++
  ",\n    \"description\": " ++ jsonQuote r.description ++ "\n  \x7d"

/-- Embeds `JSON.stringify(this.jsonData, null, 2)` for the record
array: `[]` for the empty array, otherwise the 2-space indented block
layout. -/
def jsonStringifyRecords (rs : List Record) : String :=
  if rs.isEmpty then "[]"
  else "[\n" ++ joinSep ",\n" (rs.map jsonRecord) ++ "\n]"

/-- Embeds `downloadJSON()`: `none` models the early `return` (no blob,
no link, no download); `some s` models a download of content `s`.  The
guard is `!this.jsonData || !this.jsonData.length`. -/
def downloadJSON (jsonData : Option (List Record)) : Option String :=
  match jsonData with
  | none => none
  | some rs => if rs.isEmpty then none else some (jsonStringifyRecords rs)

/-- Embeds `description.replace(/"/g, '""')`. -/
def escapeQuotes (s : String) : String :=
  String.mk (s.data.flatMap fun c => if c = '"' then ['"', '"'] else [c])

/-- The row built for one record in `downloadCSV`:
`[row.type, `"${row.name}"`, `"${row.description.replace(/"/g,'""')}"`].join(',')`.
Note the source escapes quotes only in the description, not the name. -/
def csvRow (r : Record) : String :=
  joinSep "," [r.type, "\"" ++ r.name ++ "\"",
               "\"" ++ escapeQuotes r.description ++ "\""]

/-- Embeds `downloadCSV()`: same guard as `downloadJSON`; the content
is the header row followed by one row per record, joined with `'\n'`. -/
def downloadCSV (jsonData : Option (List Record)) : Option String :=
  match jsonData with
  | none => none
  | some rs =>
    if rs.isEmpty then none
    else some (joinSep "\n" ("Type,Name,Description" :: rs.map csvRow))

/-! ## Claim-side models -/

/-- Modelled from the claim (C8): attempt, at the head of `cs`, the
shape "the word `Class` (case-insensitive), then whitespace, then a
capitalized identifier, then at least two whitespace characters". -/
def claimRelHere (cs : List Char) : Bool :=
  match cs with
  | c1 :: c2 :: c3 :: c4 :: c5 :: rest =>
    isClassKw c1 c2 c3 c4 c5 &&
    (let r1 := rest.dropWhile jsSpace
     !(rest.takeWhile jsSpace).isEmpty &&
     match r1 with
     | i :: r2 =>
       i.isUpper &&
       (let r3 := r2.dropWhile isWordChar
        match r3 with
        | a :: b :: _ => jsSpace a && jsSpace b
        | _ => false)
     | [] => false)
  | _ => false

/-- Modelled from the claim (C8): scanner for the claimed relevance
predicate, with the word boundary required by "the literal word". -/
def claimRelAux : Option Char → List Char → Bool
  | prev, cs =>
    let boundary := match prev with
      | none => true
      | some p => !isWordChar p
    (boundary && claimRelHere cs) ||
    match cs with
    | [] => false
    | c :: rest => claimRelAux (some c) rest

/-- Modelled from the claim (C8): the claimed relevance predicate —
the text contains the literal word `Class` (case-insensitive) followed
by a capitalized identifier followed by at least two whitespace
characters. -/
def claimRelevant (text : String) : Bool :=
  claimRelAux none text.data

/-- Modelled from the claim (C9): a CSV row in which *both* the name
and the description have embedded quotes doubled. -/
def claimCsvRow (r : Record) : String :=
  joinSep "," [r.type, "\"" ++ escapeQuotes r.name ++ "\"",
               "\"" ++ escapeQuotes r.description ++ "\""]

/-- Modelled from the claim (C9): the claimed CSV serialization. -/
def claimCsv (rs : List Record) : String :=
  joinSep "\n" ("Type,Name,Description" :: rs.map claimCsvRow)

/-- The amended CSV row (C9): name quoted verbatim, description quoted
with RFC4180 quote doubling. -/
def amendedCsvRow (r : Record) : String :=
  r.type ++ ",\"" ++ r.name ++ "\",\"" ++ escapeQuotes r.description ++ "\""

/-- The amended CSV serialization (C9), built by a different recursion
than the source embedding: header first, then each row prefixed by a
newline. -/
def amendedCsv (rs : List Record) : String :=
  "Type,Name,Description" ++ String.join (rs.map fun r => "\n" ++ amendedCsvRow r)

/-- The relevance shape of the amended claim (C8): some occurrence of
`class` in any casing, then at least one whitespace character, then a
letter of either case and at least one further word character, then at
least two whitespace characters. -/
def RelevantShape (cs : List Char) : Prop :=
  ∃ (pre k ws idt : List Char) (i a b : Char) (post : List Char),
    cs = pre ++ k ++ ws ++ i :: idt ++ a :: b :: post ∧
    k.map Char.toLower = ['c', 'l', 'a', 's', 's'] ∧
    ws ≠ [] ∧ ws.all jsSpace ∧ i.isAlpha ∧
    idt ≠ [] ∧ idt.all isWordChar ∧ jsSpace a ∧ jsSpace b

/-- Invariant of a pending decoder state: completing the sequence
always produces a code point of at least `0x80` (multi-byte sequences
never encode ASCII — WHATWG's overlong-encoding exclusion). -/
def stOk (st : Utf8State) : Prop :=
  1 ≤ st.needed ∧ 0x80 ≤ st.lo ∧
  0x80 ≤ st.cp * 64 ^ st.needed + (st.lo - 0x80) * 64 ^ (st.needed - 1)

/-- Detects a run of two or more consecutive `\s` characters. -/
def hasSpaceRun : List Char → Bool
  | a :: b :: rest => (jsSpace a && jsSpace b) || hasSpaceRun (b :: rest)
  | _ => false

/-! ## Character-class and list lemmas -/

theorem toNat_ofNat_of_valid {n : Nat} (h : n.isValidChar) : (Char.ofNat n).toNat = n := by
  simp [Char.ofNat, h, Char.toNat, Char.ofNatAux, UInt32.toNat]

theorem toNat_ofNat_of_invalid {n : Nat} (h : ¬ n.isValidChar) : (Char.ofNat n).toNat = 0 := by
  simp [Char.ofNat, h, Char.toNat]
  rfl

theorem char_eq_of_toNat_eq {c d : Char} (h : c.toNat = d.toNat) : c = d :=
  Char.eq_of_val_eq (UInt32.ext h)

/-- A character built from a code point `≥ 0x80` is never a nonzero
ASCII character (an invalid code point collapses to `'\0'`). -/
theorem ofNat_ne_small {n : Nat} (hn : 0x80 ≤ n) {c : Char}
    (hc : c.toNat < 0x80) (hc0 : c.toNat ≠ 0) : Char.ofNat n ≠ c := by
  intro he
  by_cases hv : n.isValidChar
  · have h1 := toNat_ofNat_of_valid hv
    rw [he] at h1
    omega
  · have h1 := toNat_ofNat_of_invalid hv
    rw [he] at h1
    omega

theorem jsSpace_false_of_isAlpha {c : Char} (h : c.isAlpha = true) : jsSpace c = false := by
  simp [Char.isAlpha, Char.isUpper, Char.isLower, UInt32.le_def, BitVec.le_def,
    Char.toNat, UInt32.toNat] at h
  simp [jsSpace, Char.toNat, UInt32.toNat]
  omega

theorem isWordChar_false_of_jsSpace {c : Char} (h : jsSpace c = true) : isWordChar c = false := by
  have hne : c ≠ '_' := by
    rintro rfl
    exact absurd h (by decide)
  simp [jsSpace, Char.toNat, UInt32.toNat] at h
  simp [isWordChar, Char.isAlpha, Char.isUpper, Char.isLower, Char.isDigit,
    UInt32.le_def, BitVec.le_def, Char.toNat, UInt32.toNat, hne]
  omega

theorem takeWhile_all_append {p : Char → Bool} :
    ∀ (xs : List Char) (y : Char) (ys : List Char),
      (∀ x ∈ xs, p x = true) → p y = false →
      (xs ++ y :: ys).takeWhile p = xs ∧ (xs ++ y :: ys).dropWhile p = y :: ys := by
  intro xs
  induction xs with
  | nil =>
    intro y ys _ hy
    simp [List.takeWhile, List.dropWhile, hy]
  | cons x xs ih =>
    intro y ys hall hy
    have hx : p x = true := hall x (by simp)
    have := ih y ys (fun z hz => hall z (by simp [hz])) hy
    simp [List.takeWhile, List.dropWhile, hx, this.1, this.2]

theorem foldl_append_shift : ∀ (l : List String) (acc : String),
    l.foldl (fun r s => r ++ s) acc = acc ++ l.foldl (fun r s => r ++ s) "" := by
  intro l
  induction l with
  | nil => intro acc; simp
  | cons x xs ih =>
    intro acc
    simp only [List.foldl]
    rw [ih (acc ++ x), ih ("" ++ x), String.empty_append, String.append_assoc]

theorem join_cons (a : String) (l : List String) :
    String.join (a :: l) = a ++ String.join l := by
  simp only [String.join, List.foldl]
  rw [foldl_append_shift l ("" ++ a), String.empty_append]

theorem foldl_append_join (sep : String) :
    ∀ (l : List String) (acc : String),
      l.foldl (fun a x => a ++ sep ++ x) acc = acc ++ String.join (l.map (sep ++ ·)) := by
  intro l
  induction l with
  | nil => intro acc; simp [String.join]
  | cons x xs ih =>
    intro acc
    simp only [List.foldl, List.map]
    rw [ih, join_cons, String.append_assoc, String.append_assoc, String.append_assoc]

theorem joinSep_cons (sep h : String) (l : List String) :
    joinSep sep (h :: l) = h ++ String.join (l.map (sep ++ ·)) := by
  simp only [joinSep]
  exact foldl_append_join sep l h

/-! ## UTF-8 decoder lemmas -/

theorem startByte_stOk {b : Nat} {st : Utf8State}
    (h : startByte b = some (Sum.inr st)) : stOk st := by
  unfold startByte at h
  split_ifs at h <;> simp at h <;> rw [← h] <;> norm_num [stOk] <;> omega

theorem startByte_inl {b : Nat} {c : Char}
    (h : startByte b = some (Sum.inl c)) : b ≤ 0x7f ∧ c = Char.ofNat b := by
  unfold startByte at h
  split_ifs at h with h1 h2 h3 h4 <;> simp at h
  exact ⟨h1, h.symm⟩

theorem utf8Run_pending_ne_nil :
    ∀ (l : List Nat) (st : Utf8State), utf8Run (some st) l ≠ [] := by
  intro l
  induction l with
  | nil => intro st; simp [utf8Run]
  | cons b r ih =>
    intro st
    simp only [utf8Run]
    split_ifs with h1 h2
    · simp
    · exact ih _
    · simp

/-- The first character produced from a pending state is never a
nonzero ASCII character. -/
theorem utf8Run_pending_head :
    ∀ (l : List Nat) (st : Utf8State), stOk st → ∀ (c : Char) (cs : List Char),
      utf8Run (some st) l = c :: cs → ¬(c.toNat ≠ 0 ∧ c.toNat < 0x80) := by
  intro l
  induction l with
  | nil =>
    intro st _ c cs h
    simp [utf8Run] at h
    rintro ⟨_, hlt⟩
    rw [← h.1] at hlt
    exact absurd hlt (by decide)
  | cons b r ih =>
    intro st hok c cs h
    obtain ⟨hn1, hlo, hbound⟩ := hok
    simp only [utf8Run] at h
    split_ifs at h with h1 h2
    · -- final continuation byte accepted: the emitted code point is ≥ 0x80
      have hc : c = Char.ofNat (st.cp * 64 + (b - 0x80)) := (List.cons.injEq _ _ _ _ ▸ h).1.symm
      rintro ⟨hne, hlt⟩
      have hval : 0x80 ≤ st.cp * 64 + (b - 0x80) := by
        rw [h2, pow_one, pow_zero, Nat.mul_one] at hbound
        omega
      exact ofNat_ne_small hval hlt hne hc.symm
    · -- middle continuation byte: recurse with the shifted state
      refine ih _ ⟨?_, ?_, ?_⟩ c cs h
      · show 1 ≤ st.needed - 1
        omega
      · show (0x80 : Nat) ≤ 0x80
        omega
      · show 0x80 ≤ (st.cp * 64 + (b - 0x80)) * 64 ^ (st.needed - 1) +
          ((0x80 : Nat) - 0x80) * 64 ^ (st.needed - 1 - 1)
        obtain ⟨m, hm⟩ : ∃ m, st.needed = m + 2 := ⟨st.needed - 2, by omega⟩
        rw [hm] at hbound ⊢
        have e1 : m + 2 - 1 = m + 1 := by omega
        rw [e1] at hbound ⊢
        calc (0x80 : Nat) ≤ st.cp * 64 ^ (m + 2) + (st.lo - 0x80) * 64 ^ (m + 1) := hbound
          _ = (st.cp * 64 + (st.lo - 0x80)) * 64 ^ (m + 1) := by ring
          _ ≤ (st.cp * 64 + (b - 0x80)) * 64 ^ (m + 1) := by
                refine Nat.mul_le_mul_right _ ?_
                omega
          _ ≤ (st.cp * 64 + (b - 0x80)) * 64 ^ (m + 1) +
              ((0x80 : Nat) - 0x80) * 64 ^ (m + 1 - 1) := Nat.le_add_right _ _
    · -- rejected continuation byte: the first character is U+FFFD
      have hc : c = repl := (List.cons.injEq _ _ _ _ ▸ h).1.symm
      rintro ⟨_, hlt⟩
      rw [hc] at hlt
      exact absurd hlt (by decide)

/-- Peeling one nonzero ASCII character off a lossy decode determines
the first input byte. -/
theorem utf8Run_none_ascii_peel :
    ∀ (l : List Nat) (c : Char) (cs : List Char),
      utf8Run none l = c :: cs → c.toNat ≠ 0 → c.toNat < 0x80 →
      ∃ r, l = c.toNat :: r ∧ utf8Run none r = cs := by
  intro l c cs h hne hlt
  cases l with
  | nil => simp [utf8Run] at h
  | cons b r =>
    simp only [utf8Run] at h
    cases hsb : startByte b with
    | none =>
      rw [hsb] at h
      have hc : c = repl := (List.cons.injEq _ _ _ _ ▸ h).1.symm
      rw [hc] at hlt
      exact absurd hlt (by decide)
    | some v =>
      cases v with
      | inl ch =>
        rw [hsb] at h
        obtain ⟨hcc, hrest⟩ := List.cons.injEq _ _ _ _ ▸ h
        obtain ⟨hb, hch⟩ := startByte_inl hsb
        have hvalid : b.isValidChar := Or.inl (by omega)
        have : c.toNat = b := by rw [← hcc, hch, toNat_ofNat_of_valid hvalid]
        exact ⟨r, by rw [this], hrest⟩
      | inr st =>
        rw [hsb] at h
        exact absurd ⟨hne, hlt⟩ (utf8Run_pending_head r st (startByte_stOk hsb) c cs h)

theorem utf8Run_none_nil {l : List Nat} (h : utf8Run none l = []) : l = [] := by
  cases l with
  | nil => rfl
  | cons b r =>
    simp only [utf8Run] at h
    cases hsb : startByte b with
    | none => rw [hsb] at h; simp at h
    | some v =>
      cases v with
      | inl ch => rw [hsb] at h; simp at h
      | inr st => rw [hsb] at h; exact absurd h (utf8Run_pending_ne_nil r st)

/-- Only the exact bytes `49 54 53 46` (hex) lossy-decode to `ITSF`. -/
theorem utf8Lossy_itsf {l : List Nat} (h : utf8DecodeLossy l = "ITSF".data) :
    l = [73, 84, 83, 70] := by
  simp only [utf8DecodeLossy] at h
  obtain ⟨r1, he1, h1⟩ := utf8Run_none_ascii_peel l 'I' _ h (by decide) (by decide)
  obtain ⟨r2, he2, h2⟩ := utf8Run_none_ascii_peel r1 'T' _ h1 (by decide) (by decide)
  obtain ⟨r3, he3, h3⟩ := utf8Run_none_ascii_peel r2 'S' _ h2 (by decide) (by decide)
  obtain ⟨r4, he4, h4⟩ := utf8Run_none_ascii_peel r3 'F' _ h3 (by decide) (by decide)
  have : r4 = [] := utf8Run_none_nil h4
  subst this
  rw [he1, he2, he3, he4]
  rfl

theorem validateCHM_iff (buffer : List Nat) :
    validateCHM buffer = true ↔ buffer.take 4 = [73, 84, 83, 70] := by
  constructor
  · intro h
    simp only [validateCHM] at h
    split_ifs at h with hlen
    exact utf8Lossy_itsf (by simpa using h)
  · intro h
    have hlen : 4 ≤ buffer.length := by
      by_contra hc
      have : (buffer.take 4).length = buffer.length := by
        simp [List.length_take]
        omega
      rw [h] at this
      simp at this
      omega
    simp only [validateCHM]
    rw [if_neg (by omega), h]
    decide

/-- Strict UTF-8 success implies the non-fatal decoder returns the
same characters. -/
theorem utf8Run_strict_lossy :
    ∀ (l : List Nat) (st : Option Utf8State) (cs : List Char),
      utf8RunStrict st l = some cs → utf8Run st l = cs := by
  intro l
  induction l with
  | nil =>
    intro st cs h
    cases st with
    | none =>
      simp [utf8RunStrict] at h
      simp [utf8Run, ← h]
    | some st => simp [utf8RunStrict] at h
  | cons b r ih =>
    intro st cs h
    cases st with
    | none =>
      simp only [utf8RunStrict] at h
      cases hsb : startByte b with
      | none => rw [hsb] at h; simp at h
      | some v =>
        cases v with
        | inl ch =>
          rw [hsb] at h
          obtain ⟨cs', hcs', hmap⟩ := Option.map_eq_some'.mp h
          simp only [utf8Run, hsb]
          rw [ih none cs' hcs']
          exact hmap
        | inr st' =>
          rw [hsb] at h
          simp only [utf8Run, hsb]
          exact ih _ _ h
    | some st =>
      simp only [utf8RunStrict] at h
      split_ifs at h with h1 h2
      · obtain ⟨cs', hcs', hmap⟩ := Option.map_eq_some'.mp h
        simp only [utf8Run, if_pos h1, if_pos h2]
        rw [ih none cs' hcs']
        exact hmap
      · simp only [utf8Run, if_pos h1, if_neg h2]
        exact ih _ _ h

/-! ## Relevance-filter characterization -/

theorem relHere_to_shape : ∀ {cs : List Char}, relHere cs = true → RelevantShape cs := by
  intro cs h
  rcases cs with _ | ⟨c1, _ | ⟨c2, _ | ⟨c3, _ | ⟨c4, _ | ⟨c5, rest⟩⟩⟩⟩⟩
  · simp [relHere] at h
  · simp [relHere] at h
  · simp [relHere] at h
  · simp [relHere] at h
  · simp [relHere] at h
  simp only [relHere] at h
  rcases hr1 : rest.dropWhile jsSpace with _ | ⟨i, r2⟩ <;> rw [hr1] at h
  · simp at h
  simp only [Bool.and_eq_true, Bool.not_eq_true'] at h
  obtain ⟨hkw, hws, hi, hidt, hmatch⟩ := h
  rcases hr3 : r2.dropWhile isWordChar with _ | ⟨a, _ | ⟨b, post⟩⟩ <;> rw [hr3] at hmatch
  · simp at hmatch
  · simp at hmatch
  simp only [Bool.and_eq_true] at hmatch
  obtain ⟨ha, hb⟩ := hmatch
  refine ⟨[], [c1, c2, c3, c4, c5], rest.takeWhile jsSpace, r2.takeWhile isWordChar,
    i, a, b, post, ?_, ?_, ?_, ?_, hi, ?_, ?_, ha, hb⟩
  · have e1 : rest = rest.takeWhile jsSpace ++ i :: r2 := by
      rw [← hr1, List.takeWhile_append_dropWhile]
    have e2 : r2 = r2.takeWhile isWordChar ++ a :: b :: post := by
      rw [← hr3, List.takeWhile_append_dropWhile]
    have e3 : rest = rest.takeWhile jsSpace ++
        (i :: (r2.takeWhile isWordChar ++ a :: b :: post)) := by
      rw [← e2]
      exact e1
    conv_lhs => rw [e3]
    simp [List.append_assoc]
  · simp [isClassKw] at hkw
    obtain ⟨⟨⟨⟨hk1, hk2⟩, hk3⟩, hk4⟩, hk5⟩ := hkw
    simp [hk1, hk2, hk3, hk4, hk5]
  · simpa [List.isEmpty_iff] using hws
  · simp only [List.all_eq_true]
    intro x hx
    exact List.mem_takeWhile_imp hx
  · simpa [List.isEmpty_iff] using hidt
  · simp only [List.all_eq_true]
    intro x hx
    exact List.mem_takeWhile_imp hx

theorem shape_to_relHere {k ws idt : List Char} {i a b : Char} {post : List Char}
    (hk : k.map Char.toLower = ['c', 'l', 'a', 's', 's'])
    (hws : ws ≠ []) (hwsall : ws.all jsSpace = true) (hi : i.isAlpha = true)
    (hidt : idt ≠ []) (hidtall : idt.all isWordChar = true)
    (ha : jsSpace a = true) (hb : jsSpace b = true) :
    relHere (k ++ ws ++ i :: idt ++ a :: b :: post) = true := by
  rcases k with _ | ⟨c1, _ | ⟨c2, _ | ⟨c3, _ | ⟨c4, _ | ⟨c5, _ | ⟨c6, k'⟩⟩⟩⟩⟩⟩ <;> simp at hk
  obtain ⟨hk1, hk2, hk3, hk4, hk5⟩ := hk
  have hwa : ∀ x ∈ ws, jsSpace x = true := List.all_eq_true.mp hwsall
  have hia : ∀ x ∈ idt, isWordChar x = true := List.all_eq_true.mp hidtall
  have hspw := takeWhile_all_append (p := jsSpace) ws i (idt ++ a :: b :: post) hwa
    (jsSpace_false_of_isAlpha hi)
  have hwrd := takeWhile_all_append (p := isWordChar) idt a (b :: post) hia
    (isWordChar_false_of_jsSpace ha)
  simp only [List.cons_append, List.nil_append, relHere]
  have e0 : ws ++ i :: idt ++ a :: b :: post = ws ++ i :: (idt ++ a :: b :: post) := by
    simp
  rw [e0, hspw.2, hspw.1]
  simp [isClassKw, hk1, hk2, hk3, hk4, hk5, hi, ha, hb, hws, hidt, hwrd.1, hwrd.2]

theorem containsRel_append {pre suf : List Char} (h : containsRel suf = true) :
    containsRel (pre ++ suf) = true := by
  induction pre with
  | nil => simpa using h
  | cons p pre' ih =>
    simp only [List.cons_append, containsRel, Bool.or_eq_true]
    exact Or.inr ih

theorem containsRel_iff : ∀ (cs : List Char), containsRel cs = true ↔ RelevantShape cs := by
  intro cs
  induction cs with
  | nil =>
    simp only [containsRel]
    constructor
    · intro h
      exact absurd h (by decide)
    · rintro ⟨pre, k, ws, idt, i, a, b, post, heq, -⟩
      exact absurd heq.symm (by simp)
  | cons c rest ih =>
    constructor
    · intro h
      rcases Bool.or_eq_true _ _ ▸ h with h' | h'
      · exact relHere_to_shape h'
      · obtain ⟨pre, k, ws, idt, i, a, b, post, heq, rest'⟩ := ih.mp h'
        exact ⟨c :: pre, k, ws, idt, i, a, b, post, by rw [heq]; rfl, rest'⟩
    · rintro ⟨pre, k, ws, idt, i, a, b, post, heq, hk, hws, hwsall, hi, hidt, hidtall, ha, hb⟩
      cases pre with
      | nil =>
        simp only [List.nil_append] at heq
        have : relHere (c :: rest) = true := by
          rw [heq]
          exact shape_to_relHere hk hws hwsall hi hidt hidtall ha hb
        simp only [containsRel, Bool.or_eq_true]
        exact Or.inl this
      | cons p pre' =>
        simp only [List.cons_append, List.cons.injEq] at heq
        simp only [containsRel, Bool.or_eq_true]
        refine Or.inr (ih.mpr ⟨pre', k, ws, idt, i, a, b, post, heq.2, hk, hws, hwsall,
          hi, hidt, hidtall, ha, hb⟩)

/-! ## Export lemmas -/

theorem csvRow_eq_amended (r : Record) : csvRow r = amendedCsvRow r := by
  simp only [csvRow, amendedCsvRow, joinSep, List.foldl]
  apply String.ext
  simp [String.data_append]

theorem downloadCSV_amended {rs : List Record} (h : rs ≠ []) :
    downloadCSV (some rs) = some (amendedCsv rs) := by
  have he : rs.isEmpty = false := by simp [List.isEmpty_iff, h]
  simp only [downloadCSV, he, Bool.false_eq_true, if_false]
  rw [joinSep_cons]
  unfold amendedCsv
  rw [List.map_map]
  have : ((fun x => "\n" ++ x) ∘ csvRow) = fun r => "\n" ++ amendedCsvRow r := by
    funext r
    simp [Function.comp, csvRow_eq_amended]
  rw [this]

/-! ## Claims -/

/-- C1: for every input buffer whose first 4 bytes are not the ASCII
characters `ITSF` (including every buffer shorter than 4 bytes),
signature validation returns the invalid outcome and the extraction
entry point fails with the distinct `InvalidFormat` error before any
chunk decoding; for every buffer whose first 4 bytes equal `ITSF`, the
minimal validation succeeds.  Stated as: `validateCHM` succeeds exactly
when the first four bytes are `73 84 83 70` (`'ITSF'`), and otherwise
`extractClassRecords` is the `invalidFormat` error. -/
theorem c1_signature_gate (buffer : List Nat) :
    (validateCHM buffer = true ↔ buffer.take 4 = [73, 84, 83, 70]) ∧
    (buffer.take 4 ≠ [73, 84, 83, 70] →
      extractClassRecords buffer = Except.error ExtractError.invalidFormat) := by
  refine ⟨validateCHM_iff buffer, fun h => ?_⟩
  have hv : validateCHM buffer = false := by
    cases hb : validateCHM buffer
    · rfl
    · exact absurd ((validateCHM_iff buffer).mp hb) h
  simp [extractClassRecords, hv]

/-- Witness for C1 at the buffers `XYZA` and `ITSF…`. -/
theorem c1_signature_gate_witness :
    extractClassRecords [88, 89, 90, 65] = Except.error ExtractError.invalidFormat ∧
    validateCHM [73, 84, 83, 70, 0] = true :=
  ⟨(c1_signature_gate [88, 89, 90, 65]).2 (by decide),
   (c1_signature_gate [73, 84, 83, 70, 0]).1.mpr (by decide)⟩

set_option maxRecDepth 40000 in
/-- C2 (claim: every description has length in `[1, 500]`, a
600-character description is truncated to 500): the code performs no
truncation and no lower bound — a header followed by 600 characters
yields a description of length 600, and a header whose trailing text is
empty yields the empty description. -/
theorem c2_description_length_eval :
    ((toStructuredJSON (String.mk ("Class TestClass ".data ++
        List.replicate 600 'A'))).map (fun r => r.description.length) = [600]) ∧
    (toStructuredJSON "Class Foo ").map Record.description = [""] := by
  decide

/-- C3 (claim: every returned name is capitalized, of length ≥ 2, and
never a denylist word such as "definitions"): the code has no denylist
— the prose sentence used by the repository's own test
(`class-detection-fixes.test.js`, which expects `[]`) yields a record
named `definitions`. -/
theorem c3_denylist_eval :
    toStructuredJSON
        "This text has some class definitions mentioned but no actual classes" =
      [⟨"Class", "definitions", "mentioned but no actual classes"⟩] := by
  decide

/-- C4 (claim: an empty captured description is replaced by the default
`"{name} class"`, so `"Class Widget"` yields one record with
description `"Widget class"`): the code's header pattern requires
whitespace after the name, so `"Class Widget"` matches nothing and no
record at all is produced. -/
theorem c4_no_default_description_eval :
    toStructuredJSON "Class Widget" = [] := by
  decide

/-- C5 counterexample: the chunk decoder is not the spec's fallback
ladder — on the window `FF FF` the code's non-fatal UTF-8 decode yields
two replacement characters while the ladder would decode UTF-16LE. -/
theorem c5_ladder_counterexample :
    utf8DecodeLossy [255, 255] ≠ specLadderDecode [255, 255] := by
  decide

/-- C5 (amended): every byte window is decoded by a single non-fatal
UTF-8 decoding, which never fails (so no per-chunk decode failure can
propagate) and agrees with strict UTF-8 on windows that are valid
UTF-8; no UTF-16LE, Windows-1252 or Latin-1 fallback is attempted. -/
theorem c5_single_utf8_decode (bytes : List Nat) (cs : List Char)
    (h : utf8DecodeStrict bytes = some cs) : utf8DecodeLossy bytes = cs :=
  utf8Run_strict_lossy bytes none cs h

/-- Witness for C5 at the valid-UTF-8 window `48 69` (`"Hi"`). -/
theorem c5_single_utf8_decode_witness :
    utf8DecodeStrict [72, 105] = some ['H', 'i'] ∧
    utf8DecodeLossy [72, 105] = ['H', 'i'] :=
  ⟨by decide, c5_single_utf8_decode [72, 105] ['H', 'i'] (by decide)⟩

/-- C6: `"Class Foo line one\nline two\nClass Bar x"` yields exactly
the two records `Foo` (description `"line one line two"`, continuation
joined with single spaces, header trailing text included, the `Bar`
header re-processed without double consumption) and `Bar`; and in
`"Class Foo desc\n\nClass Bar desc2"` the blank line terminates the
capture, leaving `Foo`'s description exactly `"desc"`. -/
theorem c6_multiline_and_blank :
    (toStructuredJSON "Class Foo line one\nline two\nClass Bar x" =
      [⟨"Class", "Foo", "line one line two"⟩, ⟨"Class", "Bar", "x"⟩]) ∧
    (toStructuredJSON "Class Foo desc\n\nClass Bar desc2" =
      [⟨"Class", "Foo", "desc"⟩, ⟨"Class", "Bar", "desc2"⟩]) := by
  decide

/-- C7 counterexample: continuation lines are not HTML-stripped or
whitespace-collapsed — the continuation `<b>x</b>  y` survives verbatim
in the returned description, tag and double space included. -/
theorem c7_strip_counterexample :
    (toStructuredJSON "Class Foo desc\n<b>x</b>  y").map Record.description =
      ["desc <b>x</b>  y"] ∧
    hasSpaceRun "desc <b>x</b>  y".data = true := by
  decide

/-- C7 (amended): during description capture every continuation line is
appended verbatim after trimming leading and trailing whitespace,
separated by a single space — no HTML stripping and no collapsing of
internal whitespace runs happens, so descriptions may retain tags and
whitespace runs. -/
theorem c7_verbatim_append (n d : List Char) (ls rest : List (List Char))
    (h : ∀ l ∈ ls, isBlankLine l = false ∧ newHeaderTest l = false) :
    extractLines (ls ++ rest) (some (n, d)) =
      extractLines rest
        (some (n, ls.foldl (fun acc l => acc ++ ' ' :: jsTrimList l) d)) := by
  induction ls generalizing d with
  | nil => rfl
  | cons l ls ih =>
    obtain ⟨hbl, hnh⟩ := h l (by simp)
    simp only [List.cons_append, extractLines, hbl, hnh, Bool.or_self, if_false,
      List.foldl]
    exact ih _ fun x hx => h x (by simp [hx])

/-- Witness for C7 on the continuation line `<b>x</b>  y`. -/
theorem c7_verbatim_append_witness :
    extractLines ["<b>x</b>  y".data] (some ("Foo".data, "desc".data)) =
      extractLines []
        (some ("Foo".data, "desc".data ++ ' ' :: jsTrimList "<b>x</b>  y".data)) :=
  c7_verbatim_append "Foo".data "desc".data ["<b>x</b>  y".data] [] (by decide)

/-- C8 counterexample: the relevance filter is not equivalent to the
claimed "capitalized identifier" test — because every source regex
carries the `i` flag, `"Class foo  x"` is accepted by the code although
it contains no capitalized identifier in the claimed shape. -/
theorem c8_capitalized_counterexample :
    containsRelevantText "Class foo  x" = true ∧
    claimRelevant "Class foo  x" = false := by
  decide

/-- C8 (amended): the relevance filter accepts a text exactly when it
contains, at any position (no word boundary), the letters `class` in
any casing, then at least one whitespace character, then a letter of
either case followed by at least one more word character, then at least
two whitespace characters. -/
theorem c8_relevance_characterization (text : String) :
    containsRelevantText text = true ↔ RelevantShape text.data :=
  containsRel_iff text.data

/-- Witness for C8 at `"Class TestClass  ok"`. -/
theorem c8_relevance_characterization_witness :
    containsRelevantText "Class TestClass  ok" = true :=
  (c8_relevance_characterization "Class TestClass  ok").mpr
    ⟨[], "Class".data, [' '], "estClass".data, 'T', ' ', ' ', "ok".data,
      by decide, by decide, by decide, by decide, by decide, by decide,
      by decide, by decide, by decide⟩

/-- C9 counterexample: embedded double quotes are escaped in the
description field only — a name containing a quote is emitted without
doubling, contradicting the claim that both fields are RFC4180
escaped. -/
theorem c9_name_escape_counterexample :
    downloadCSV (some [⟨"Class", "A\"B", "d"⟩]) ≠
      some (claimCsv [⟨"Class", "A\"B", "d"⟩]) := by
  decide

/-- C9 (amended): for every non-empty record list the CSV export is the
header `Type,Name,Description` followed by one row per record in
order; each row wraps the name and the description in double quotes,
doubling embedded quotes in the description only — the name is quoted
verbatim. -/
theorem c9_csv_format (rs : List Record) (h : rs ≠ []) :
    downloadCSV (some rs) = some (amendedCsv rs) :=
  downloadCSV_amended h

/-- Witness for C9 at a one-record list. -/
theorem c9_csv_format_witness :
    downloadCSV (some [⟨"Class", "N", "d"⟩]) =
      some (amendedCsv [⟨"Class", "N", "d"⟩]) :=
  c9_csv_format [⟨"Class", "N", "d"⟩] (by decide)

/-- C10: when the stored record list is `null` or empty, both export
operations return immediately producing no artifact; an export file is
produced exactly for a non-empty record list. -/
theorem c10_empty_exports :
    (∀ st, (st = none ∨ st = some ([] : List Record)) →
      downloadJSON st = none ∧ downloadCSV st = none) ∧
    (∀ rs : List Record, rs ≠ [] →
      (downloadJSON (some rs)).isSome = true ∧
      (downloadCSV (some rs)).isSome = true) := by
  constructor
  · rintro st (rfl | rfl) <;> simp [downloadJSON, downloadCSV]
  · intro rs h
    have he : rs.isEmpty = false := by simp [List.isEmpty_iff, h]
    simp [downloadJSON, downloadCSV, he]

/-- Witness for C10: no artifact for `null` data, an artifact for one
record. -/
theorem c10_empty_exports_witness :
    downloadJSON none = none ∧
    (downloadCSV (some [⟨"Class", "N", "d"⟩])).isSome = true :=
  ⟨(c10_empty_exports.1 none (Or.inl rfl)).1,
   (c10_empty_exports.2 [⟨"Class", "N", "d"⟩] (by decide)).2⟩

end Chm
